import Mathlib

/-!
Verification of the document-construction core of `bin/generate_dmtn.py`.

The Python program builds a reStructuredText report out of nested text
accumulators (`Paragraph`, `Directive`, `BulletListItem`, `BulletList`,
`Section`, `ReSTDocument`), all sharing one generic scoped-child mechanism
(`add_context`): a context manager that creates a child accumulator, hands
it to the caller, and on scope exit appends the child's `get_result()` to
the parent's buffer.

This file shallowly embeds those classes.  A Python `StringIO` buffer is a
Lean `String`; each class becomes a structure holding its buffer (plus its
level, for `Section`); each `get_result` becomes a Lean function on that
structure.  Python string helpers used by the source (`str.strip`,
`textwrap.indent`, `str.splitlines(keepends=True)`, slicing, `''.join`)
are modelled below on `List Char`.  All strings produced by the program
use `'\n'` as the only line separator and contain no exotic whitespace,
so modelling Python whitespace by `Char.isWhitespace` is faithful here.
-/

namespace DMTN

/-- Model of Python `''.join` on a list of strings (structural recursion,
used instead of `String.join` to ease rewriting). -/
def joinStr : List String → String
  | [] => ""
  | s :: rest => s ++ joinStr rest

/-- Strip leading and trailing whitespace from a character list: the model
of Python `str.strip()`. -/
def stripChars (cs : List Char) : List Char :=
  ((cs.dropWhile Char.isWhitespace).reverse.dropWhile Char.isWhitespace).reverse

/-- Model of Python `str.strip()`. -/
def pyStrip (s : String) : String := String.mk (stripChars s.toList)

/-- Model of Python slicing `s[n:]`. -/
def strDrop (s : String) (n : Nat) : String := String.mk (s.toList.drop n)

/-- Helper for `linesKE`: split a character list after every newline,
carrying the (reversed) current line in `acc`. -/
def linesAux (acc : List Char) : List Char → List (List Char)
  | [] => if acc.isEmpty then [] else [acc.reverse]
  | c :: cs =>
    if c = '\n' then (acc.reverse ++ ['\n']) :: linesAux [] cs
    else linesAux (c :: acc) cs

/-- Model of Python `str.splitlines(keepends=True)` for strings whose only
line separator is `'\n'`: the list of lines, each keeping its trailing
newline (the last line may lack one). -/
def linesKE (s : String) : List String :=
  (linesAux [] s.toList).map String.mk

/-- Model of Python `textwrap.indent(s, pre)`: prepend `pre` to every line
that contains a non-whitespace character (the default predicate is
`line.strip()` being truthy). -/
def indentText (pre : String) (s : String) : String :=
  joinStr ((linesKE s).map fun l => if pyStrip l = "" then l else pre ++ l)

/-- The operation named by the spec's round-trip property: remove a
three-space indent from every line that carries one. -/
def unindent3 (s : String) : String :=
  joinStr ((linesKE s).map fun l =>
    if l.toList.take 3 = [' ', ' ', ' '] then strDrop l 3 else l)

/-- `HEADING_CHARS = '#=-^"'` from the source. -/
def HEADING_CHARS : String := "#=-^\""

/-- The heading character for a nesting level: `HEADING_CHARS[level]`.
Python raises `IndexError` for `level ≥ 5`; the default `' '` is never
used by any theorem below (they hypothesise `level < 5`). -/
def headingChar (level : Nat) : Char := HEADING_CHARS.toList.getD level ' '

/-- Python truthiness of an optional string (`None` and `''` are falsy). -/
def truthyStr : Option String → Bool
  | some s => s ≠ ""
  | none => false

/-- `underline(text, character, overline)` from the source:
`f"{line if overline else ''}{text}\n{line}".strip()` with
`line = character * len(text) + "\n"`. -/
def underline (text : String) (character : Char) (overline : Bool) : String :=
  let line := String.mk (List.replicate text.length character) ++ "\n"
  pyStrip ((if overline then line else "") ++ text ++ "\n" ++ line)

/-- `Paragraph`: buffer of written lines. -/
structure Paragraph where
  buffer : String

/-- `Paragraph.write_line`: `self._buffer.write(line + "\n")`. -/
def Paragraph.write_line (p : Paragraph) (line : String) : Paragraph :=
  ⟨p.buffer ++ line ++ "\n"⟩

/-- `Paragraph.get_result`: the buffer plus one trailing newline. -/
def Paragraph.get_result (p : Paragraph) : String :=
  p.buffer ++ "\n"

/-- A `Paragraph` freshly created and populated by `write_line` calls, in
order — the way every paragraph in the program is built. -/
def paragraphOf (written : List String) : Paragraph :=
  written.foldl Paragraph.write_line ⟨""⟩

/-- The header of `Directive.__init__` before its newline:
`f"{name}:: {argument if argument else ''}"`. -/
def headerRaw (name : String) (argument : Option String) : String :=
  name ++ ":: " ++ (if truthyStr argument then argument.getD "" else "")

/-- One option line of `Directive.__init__` before its newline:
`:name: value` when the value is truthy, bare `:name:` otherwise. -/
def optionRaw (nv : String × Option String) : String :=
  if truthyStr nv.2 then ":" ++ nv.1 ++ ": " ++ (nv.2.getD "")
  else ":" ++ nv.1 ++ ":"

/-- One option line of `Directive.__init__`, newline included. -/
def optionLine (nv : String × Option String) : String :=
  optionRaw nv ++ "\n"

/-- `Directive` (also `Admonition` and `Figure`, which only delegate to
it): buffer primed by the constructor, children appended afterwards. -/
structure Directive where
  buffer : String

/-- `Directive.__init__`: header line `f"{name}:: {argument if argument
else ''}\n"`, one line per option in insertion order, then a blank line. -/
def Directive.init (name : String) (argument : Option String)
    (options : List (String × Option String)) : Directive :=
  ⟨headerRaw name argument ++ "\n" ++ joinStr (options.map optionLine) ++ "\n"⟩

/-- `Directive.get_result`:
`".." + textwrap.indent(buffer, "   ")[2:] + "\n"`. -/
def Directive.get_result (d : Directive) : String :=
  ".." ++ strDrop (indentText "   " d.buffer) 2 ++ "\n"

/-- The scoped `paragraph` child on a `Directive` (installed by
`add_context("paragraph", Paragraph)`): create an empty paragraph, let the
body populate it, append its rendering on exit. -/
def Directive.paragraph (d : Directive) (body : Paragraph → Paragraph) : Directive :=
  ⟨d.buffer ++ (body ⟨""⟩).get_result⟩

/-- A directive whose buffer holds, after the constructor's part, the
concatenation `cs` of its scoped children's renderings. -/
def directiveWith (name : String) (argument : Option String)
    (options : List (String × Option String)) (cs : String) : Directive :=
  ⟨(Directive.init name argument options).buffer ++ cs⟩

/-- `BulletListItem`: buffer of scoped-paragraph renderings. -/
structure BulletListItem where
  buffer : String

/-- `BulletListItem.get_result`: indent the buffer by two spaces, then
replace the first character with the `-` bullet. -/
def BulletListItem.get_result (b : BulletListItem) : String :=
  "-" ++ strDrop (indentText "  " b.buffer) 1

/-- The scoped `paragraph` child on a `BulletListItem`. -/
def BulletListItem.paragraph (b : BulletListItem)
    (body : Paragraph → Paragraph) : BulletListItem :=
  ⟨b.buffer ++ (body ⟨""⟩).get_result⟩

/-- `BulletList`: buffer of rendered items. -/
structure BulletList where
  buffer : String

/-- `BulletList.get_result`: just the buffer. -/
def BulletList.get_result (l : BulletList) : String := l.buffer

/-- The scoped `bullet` child on a `BulletList` (installed by
`add_context("bullet", BulletListItem)`). -/
def BulletList.bullet (l : BulletList)
    (body : BulletListItem → BulletListItem) : BulletList :=
  ⟨l.buffer ++ (body ⟨""⟩).get_result⟩

/-- The cross-reference target emitted by `Section.__init__` when a truthy
anchor is given: `.. _anchor:` plus a blank line. -/
def anchorText : Option String → String
  | some a => if a = "" then "" else ".. _" ++ a ++ ":\n\n"
  | none => ""

/-- `Section`: nesting level and buffer. -/
structure Section where
  level : Nat
  buffer : String

/-- `Section.__init__`: optional anchor target, then
`underline(title, HEADING_CHARS[level])` and a blank line. -/
def Section.init (level : Nat) (title : String) (anchor : Option String) : Section :=
  ⟨level, anchorText anchor ++ underline title (headingChar level) false ++ "\n\n"⟩

/-- `Section.get_result`: just the buffer. -/
def Section.get_result (s : Section) : String := s.buffer

/-- The child-creation half of `add_context("section", Section,
needs_level=True)` on a `Section` parent: the new section's level is
`parent._level + 1`; the caller passes no level. -/
def Section.acquireSubsection (parent : Section) (title : String)
    (anchor : Option String) : Section :=
  Section.init (parent.level + 1) title anchor

/-- The full scoped `section` child on a `Section`: acquire, populate,
append the rendering on exit. -/
def Section.subsectionScope (parent : Section) (title : String)
    (anchor : Option String) (body : Section → Section) : Section :=
  ⟨parent.level, parent.buffer ++ (body (parent.acquireSubsection title anchor)).get_result⟩

/-- `ReSTDocument`: buffer primed by the constructor. -/
structure ReSTDocument where
  buffer : String

/-- One metadata field line of `ReSTDocument.__init__`: `:name:` plus
`" value"` when the value is truthy, then a newline. -/
def fieldLine (nv : String × Option String) : String :=
  ":" ++ nv.1 ++ ":" ++ (if truthyStr nv.2 then " " ++ (nv.2.getD "") else "") ++ "\n"

/-- `ReSTDocument.__init__`: overlined title with `HEADING_CHARS[0]`,
overlined subtitle with `HEADING_CHARS[1]`, one line per metadata field,
then a blank line when any of those was written. -/
def ReSTDocument.init (title subtitle : Option String)
    (options : List (String × Option String)) : ReSTDocument :=
  ⟨(if truthyStr title then underline (title.getD "") (headingChar 0) true ++ "\n" else "")
    ++ (if truthyStr subtitle then underline (subtitle.getD "") (headingChar 1) true ++ "\n" else "")
    ++ joinStr (options.map fieldLine)
    ++ (if truthyStr title || truthyStr subtitle || !options.isEmpty then "\n" else "")⟩

/-- `ReSTDocument.get_result`: just the buffer. -/
def ReSTDocument.get_result (d : ReSTDocument) : String := d.buffer

/-- The body of `add_context`'s generated method, for one scope of any
child kind on any container: create the child `manager`, run the caller's
populating `body`, and at scope exit append `manager.get_result()` to the
parent's buffer. -/
def add_context_append {α : Type} (get_result : α → String) (manager : α)
    (body : α → α) (buf : String) : String :=
  buf ++ get_result (body manager)

/-- A sequence of scoped-child uses on one container, in the order the
scopes are opened: each entry is the freshly created child and the
caller's populating function. -/
def run_contexts {α : Type} (get_result : α → String) (buf : String)
    (scopes : List (α × (α → α))) : String :=
  scopes.foldl (fun b s => add_context_append get_result s.1 s.2 b) buf

/-- The Python base class `TextAccumulator` is an ABC whose `get_result`
is `@abstractmethod`: the undifferentiated base cannot render, while each
concrete subclass supplies its own `get_result`.  The closed variant set
of the program, with `base` marking the abstract base itself. -/
inductive AccKind where
  | base | paragraph | directive | bulletListItem | bulletList | sect | document
  deriving DecidableEq

/-- Rendering by kind: the abstract base yields the not-implemented
error (modelling the `@abstractmethod` contract), every concrete subclass
renders its buffer with its own rule from the source. -/
def renderAcc : AccKind → String → Except String String
  | .base, _ => .error "not implemented"
  | .paragraph, buf => .ok (Paragraph.get_result ⟨buf⟩)
  | .directive, buf => .ok (Directive.get_result ⟨buf⟩)
  | .bulletListItem, buf => .ok (BulletListItem.get_result ⟨buf⟩)
  | .bulletList, buf => .ok (BulletList.get_result ⟨buf⟩)
  | .sect, buf => .ok (Section.get_result ⟨1, buf⟩)
  | .document, buf => .ok (ReSTDocument.get_result ⟨buf⟩)

/-- A milestone record, reduced to the one field `get_extreme_dates`
reads: its due date (`datetime` modelled as a point on an integer
timeline, which preserves the total order). -/
structure Milestone where
  due : Int

/-- The loop body of `get_extreme_dates`: replace the current earliest
when unset (`None` — a `datetime` is never falsy) or strictly greater than
the record's due date, and the current latest symmetrically. -/
def extremeStep (acc : Option Int × Option Int) (ms : Milestone) :
    Option Int × Option Int :=
  ((match acc.1 with
    | none => some ms.due
    | some e => if ms.due < e then some ms.due else some e),
   (match acc.2 with
    | none => some ms.due
    | some l => if ms.due > l then some ms.due else some l))

/-- `get_extreme_dates(milestones)` from the source: fold `extremeStep`
over the records starting from `(None, None)`. -/
def get_extreme_dates (milestones : List Milestone) : Option Int × Option Int :=
  milestones.foldl extremeStep (none, none)

/-- The concrete block of scenario C2: `Directive("note")` populated by
one scoped paragraph holding the single line `"Body text."`. -/
def noteBlock : Directive :=
  (Directive.init "note" none []).paragraph (fun p => p.write_line "Body text.")

/-- The concrete document of scenario C3: title `"Report"`, no subtitle,
single metadata field `tocdepth=1`. -/
def reportDoc : ReSTDocument :=
  ReSTDocument.init (some "Report") none [("tocdepth", some "1")]

/-- The concrete list of scenario C8: two bullets whose paragraphs hold
the single lines `"a"` and `"b"`. -/
def listAB : BulletList :=
  ((⟨""⟩ : BulletList).bullet (fun b => b.paragraph (fun p => p.write_line "a"))).bullet
    (fun b => b.paragraph (fun p => p.write_line "b"))

/-! ## Helper lemmas -/

/-- The buffer of a freshly created paragraph after a sequence of
`write_line` calls: the written lines, each terminated by a newline. -/
theorem paragraph_buffer (written : List String) : ∀ b : String,
    (written.foldl Paragraph.write_line ⟨b⟩).buffer
      = b ++ joinStr (written.map fun l => l ++ "\n") := by
  induction written with
  | nil => intro b; exact (String.append_empty b).symm
  | cons hd tl ih =>
    intro b
    have h1 : (hd :: tl).foldl Paragraph.write_line ⟨b⟩
        = tl.foldl Paragraph.write_line ⟨b ++ hd ++ "\n"⟩ := rfl
    rw [h1, ih (b ++ hd ++ "\n")]
    show b ++ hd ++ "\n" ++ joinStr (tl.map fun l => l ++ "\n")
        = b ++ ((hd ++ "\n") ++ joinStr (tl.map fun l => l ++ "\n"))
    rw [String.append_assoc b hd "\n",
      String.append_assoc b (hd ++ "\n") (joinStr (tl.map fun l => l ++ "\n"))]

/-- Invariant of the `get_extreme_dates` fold once both components are
set: both stay set, only move toward the extremes, come from the list when
they move, and bound every due date seen. -/
theorem foldl_extremeStep (ms : List Milestone) : ∀ e l : Int,
    ∃ e2 l2, ms.foldl extremeStep (some e, some l) = (some e2, some l2)
      ∧ (e2 = e ∨ e2 ∈ ms.map Milestone.due)
      ∧ (l2 = l ∨ l2 ∈ ms.map Milestone.due)
      ∧ e2 ≤ e ∧ l ≤ l2
      ∧ ∀ d ∈ ms.map Milestone.due, e2 ≤ d ∧ d ≤ l2 := by
  induction ms with
  | nil =>
    intro e l
    exact ⟨e, l, rfl, Or.inl rfl, Or.inl rfl, le_refl _, le_refl _, by simp⟩
  | cons m tl ih =>
    intro e l
    have hred : extremeStep (some e, some l) m
        = (some (if m.due < e then m.due else e),
           some (if m.due > l then m.due else l)) := by
      show ((if m.due < e then some m.due else some e),
          (if m.due > l then some m.due else some l)) = _
      rw [apply_ite some, apply_ite some]
    have hstep : (m :: tl).foldl extremeStep (some e, some l)
        = tl.foldl extremeStep
            (some (if m.due < e then m.due else e),
             some (if m.due > l then m.due else l)) := by
      rw [List.foldl_cons, hred]
    obtain ⟨e2, l2, heq, he2, hl2, hee, hll, hall⟩ :=
      ih (if m.due < e then m.due else e) (if m.due > l then m.due else l)
    refine ⟨e2, l2, hstep.trans heq, ?_, ?_, ?_, ?_, ?_⟩
    · rcases he2 with h | h
      · split_ifs at h with hc
        · exact Or.inr (by simp [h])
        · exact Or.inl h
      · exact Or.inr (by simp [h])
    · rcases hl2 with h | h
      · split_ifs at h with hc
        · exact Or.inr (by simp [h])
        · exact Or.inl h
      · exact Or.inr (by simp [h])
    · split_ifs at hee <;> omega
    · split_ifs at hll <;> omega
    · intro d hd
      rcases List.mem_cons.mp hd with h | h
      · constructor
        · have : e2 ≤ (if m.due < e then m.due else e) := hee
          subst h; split_ifs at this <;> omega
        · have : (if m.due > l then m.due else l) ≤ l2 := hll
          subst h; split_ifs at this <;> omega
      · exact hall d h

/-- `String` data of an append, for rewriting. -/
theorem data_append (s t : String) : (s ++ t).data = s.data ++ t.data := rfl

/-- `String` data of `String.mk`, for rewriting. -/
theorem data_mk (l : List Char) : (String.mk l).data = l := rfl

/-- `String.length` is the length of the data list. -/
theorem length_data (s : String) : s.length = s.data.length := rfl

/-- Stripping a string of the shape `title ++ "\n" ++ run ++ "\n"`, where
the title starts with a non-whitespace character and the run is a
non-empty sequence of a non-whitespace character, removes exactly the
final newline. -/
theorem stripChars_title_run (c0 : Char) (rest : List Char) (n : Nat) (c : Char)
    (hc0 : c0.isWhitespace = false) (hc : c.isWhitespace = false) :
    stripChars ((c0 :: rest) ++ '\n' :: (List.replicate (n + 1) c ++ ['\n']))
      = (c0 :: rest) ++ '\n' :: List.replicate (n + 1) c := by
  unfold stripChars
  have h1 : List.dropWhile Char.isWhitespace
      ((c0 :: rest) ++ '\n' :: (List.replicate (n + 1) c ++ ['\n']))
      = (c0 :: rest) ++ '\n' :: (List.replicate (n + 1) c ++ ['\n']) := by
    rw [List.cons_append, List.dropWhile_cons, if_neg (by simp [hc0])]
  rw [h1]
  have h2 : ((c0 :: rest) ++ '\n' :: (List.replicate (n + 1) c ++ ['\n'])).reverse
      = '\n' :: ((List.replicate (n + 1) c).reverse
          ++ ('\n' :: (c0 :: rest).reverse)) := by
    simp [List.reverse_append]
  rw [h2, List.dropWhile_cons, if_pos (by decide)]
  rw [List.reverse_replicate, List.replicate_succ, List.cons_append,
    List.dropWhile_cons, if_neg (by simp [hc])]
  simp [List.reverse_append, List.reverse_replicate, List.replicate_succ]
  rw [← List.replicate_succ', List.replicate_succ]

/-- `underline(title, c, overline=False)` for a title whose first
character is not whitespace, with a non-whitespace heading character: the
title, a newline, and a run of `len(title)` copies of `c`. -/
theorem underline_no_overline (title : String) (c : Char) (c0 : Char)
    (rest : List Char) (htitle : title.data = c0 :: rest)
    (hc0 : c0.isWhitespace = false) (hc : c.isWhitespace = false) :
    underline title c false
      = title ++ "\n" ++ String.mk (List.replicate title.length c) := by
  apply String.ext
  show stripChars ((("" ++ title) ++ "\n")
      ++ (String.mk (List.replicate title.length c) ++ "\n")).data = _
  rw [data_append, data_append, data_append, data_append, data_mk]
  rw [data_append, data_append, data_mk]
  rw [show ("" : String).data = [] from rfl, List.nil_append]
  rw [show ("\n" : String).data = ['\n'] from rfl]
  rw [htitle, length_data, htitle]
  rw [List.append_assoc]
  rw [show (['\n'] ++ (List.replicate (c0 :: rest).length c ++ ['\n']))
      = '\n' :: (List.replicate (rest.length + 1) c ++ ['\n']) by
    simp [List.length_cons]]
  rw [stripChars_title_run c0 rest rest.length c hc0 hc]
  simp [List.length_cons]

/-- `String.mk` undoes taking `data`. -/
theorem mk_data_eta (s : String) : String.mk s.data = s := rfl

/-- `joinStr` distributes over list append. -/
theorem joinStr_append (a b : List String) :
    joinStr (a ++ b) = joinStr a ++ joinStr b := by
  induction a with
  | nil => exact (String.empty_append _).symm
  | cons hd tl ih =>
    show hd ++ joinStr (tl ++ b) = (hd ++ joinStr tl) ++ joinStr b
    rw [ih, String.append_assoc]

/-- A string containing a non-whitespace character does not strip to the
empty string. -/
theorem pyStrip_ne_empty (s : String) (c : Char) (hmem : c ∈ s.data)
    (hw : c.isWhitespace = false) : pyStrip s ≠ "" := by
  intro h
  have hdata : stripChars s.data = [] := congrArg String.data h
  have h1 : (s.data.dropWhile Char.isWhitespace).reverse.dropWhile
      Char.isWhitespace = [] := by
    have := congrArg List.reverse hdata
    rwa [stripChars, List.reverse_reverse, List.reverse_nil] at this
  have h2 : ∀ x ∈ (s.data.dropWhile Char.isWhitespace).reverse,
      Char.isWhitespace x = true := List.dropWhile_eq_nil_iff.mp h1
  have h3 : ∀ x ∈ s.data, Char.isWhitespace x = true := by
    intro x hx
    rw [← List.takeWhile_append_dropWhile (p := Char.isWhitespace) (l := s.data)]
      at hx
    rcases List.mem_append.mp hx with h | h
    · exact List.mem_takeWhile_imp h
    · exact h2 x (List.mem_reverse.mpr h)
  rw [h3 c hmem] at hw
  exact Bool.noConfusion hw

/-- Dropping two characters from an appended string whose first part has
at least two characters drops them from the first part. -/
theorem strDrop_append_two (A B : String) (x1 x2 : Char) (tail : List Char)
    (h : A.data = x1 :: x2 :: tail) :
    strDrop (A ++ B) 2 = strDrop A 2 ++ B := by
  apply String.ext
  show ((A ++ B).data.drop 2) = (String.mk (A.data.drop 2) ++ B).data
  rw [data_append, data_append, data_mk, h]
  rfl

/-- `linesAux` splits off one newline-terminated line whose characters
contain no newline. -/
theorem linesAux_line (chars : List Char) (hnl : ∀ c ∈ chars, c ≠ '\n') :
    ∀ (acc rest : List Char),
      linesAux acc (chars ++ '\n' :: rest)
        = (acc.reverse ++ (chars ++ ['\n'])) :: linesAux [] rest := by
  induction chars with
  | nil =>
    intro acc rest
    show linesAux acc ('\n' :: rest) = (acc.reverse ++ ['\n']) :: linesAux [] rest
    rw [linesAux, if_pos rfl]
  | cons c cs ih =>
    intro acc rest
    have hc : c ≠ '\n' := hnl c (List.mem_cons_self c cs)
    show linesAux acc (c :: (cs ++ '\n' :: rest)) = _
    rw [linesAux, if_neg hc,
      ih (fun x hx => hnl x (List.mem_cons_of_mem c hx)) (c :: acc) rest]
    congr 1
    show (c :: acc).reverse ++ (cs ++ ['\n']) = acc.reverse ++ (c :: cs ++ ['\n'])
    rw [List.reverse_cons, List.append_assoc]
    rfl

/-- `linesKE` of a concatenation of newline-terminated, newline-free
lines is exactly that list of lines. -/
theorem linesKE_joinStr (ls : List String)
    (hnl : ∀ l ∈ ls, '\n' ∉ l.data) :
    linesKE (joinStr (ls.map fun l => l ++ "\n")) = ls.map fun l => l ++ "\n" := by
  induction ls with
  | nil => rfl
  | cons hd tl ih =>
    have hhd : ∀ c ∈ hd.data, c ≠ '\n' := by
      intro c hcm
      intro he
      exact hnl hd (List.mem_cons_self hd tl) (he ▸ hcm)
    have htl : ∀ l ∈ tl, '\n' ∉ l.data :=
      fun l hl => hnl l (List.mem_cons_of_mem hd hl)
    show (linesAux [] (((hd ++ "\n") ++ joinStr (tl.map fun l => l ++ "\n")).data)).map
        String.mk = (hd ++ "\n") :: tl.map fun l => l ++ "\n"
    rw [data_append, data_append]
    rw [show ("\n" : String).data = ['\n'] from rfl]
    rw [List.append_assoc, List.singleton_append]
    rw [linesAux_line hd.data hhd [] (joinStr (tl.map fun l => l ++ "\n")).data]
    rw [List.map_cons, List.reverse_nil, List.nil_append]
    congr 1
    exact ih htl

/-- How `textwrap.indent` transforms one newline-terminated line, seen on
the line's text without its newline: prefixed when the line strips to
something non-empty, untouched otherwise. -/
def indentLine (pre : String) (l : String) : String :=
  if pyStrip (l ++ "\n") = "" then l else pre ++ l

/-- Appending a blank line to a concatenation of newline-terminated lines
is concatenating with `""` added to the line list. -/
theorem joinStr_map_append_blank (A : List String) :
    joinStr ((A ++ [""]).map fun l => l ++ "\n")
      = joinStr (A.map fun l => l ++ "\n") ++ "\n" := by
  rw [List.map_append, joinStr_append]
  rw [show joinStr (([""] : List String).map fun l => l ++ "\n")
      = ("" ++ "\n") ++ "" from rfl]
  rw [String.append_empty, String.empty_append]

/-- `textwrap.indent` on a concatenation of newline-terminated,
newline-free lines acts as `indentLine` on each line. -/
theorem indentText_joinStr (pre : String) (ls : List String)
    (hnl : ∀ l ∈ ls, '\n' ∉ l.data) :
    indentText pre (joinStr (ls.map fun l => l ++ "\n"))
      = joinStr ((ls.map (indentLine pre)).map fun l => l ++ "\n") := by
  rw [indentText, linesKE_joinStr ls hnl, List.map_map, List.map_map]
  have hfun : ((fun l => if pyStrip l = "" then l else pre ++ l) ∘ fun l => l ++ "\n")
      = ((fun l => l ++ "\n") ∘ indentLine pre) := by
    funext l
    show (if pyStrip (l ++ "\n") = "" then l ++ "\n" else pre ++ (l ++ "\n"))
        = indentLine pre l ++ "\n"
    rw [indentLine, apply_ite (fun s => s ++ "\n"), String.append_assoc]
  rw [hfun]

/-- The constructor buffer of a `Directive` as a concatenation of
newline-terminated lines: the header, the option lines, and a blank. -/
theorem init_buffer_eq (name : String) (argument : Option String)
    (opts : List (String × Option String)) :
    (Directive.init name argument opts).buffer
      = joinStr (((headerRaw name argument :: opts.map optionRaw) ++ [""]).map
          fun l => l ++ "\n") := by
  rw [List.cons_append, List.map_cons]
  show headerRaw name argument ++ "\n" ++ joinStr (opts.map optionLine) ++ "\n"
      = (headerRaw name argument ++ "\n")
        ++ joinStr ((opts.map optionRaw ++ [""]).map fun l => l ++ "\n")
  rw [joinStr_map_append_blank, List.map_map]
  rw [show opts.map ((fun l => l ++ "\n") ∘ optionRaw) = opts.map optionLine from rfl]
  rw [String.append_assoc (headerRaw name argument ++ "\n")
    (joinStr (opts.map optionLine)) "\n"]

/-- Un-indenting the indented form of a concatenation of
newline-terminated, newline-free lines — plus the renderer's one extra
newline — recovers the concatenation plus that newline, provided no line
strips empty while beginning with three spaces. -/
theorem unindent3_indentText (ls : List String)
    (hnl : ∀ l ∈ ls, '\n' ∉ l.data)
    (hws : ∀ l ∈ ls, pyStrip (l ++ "\n") = "" →
      (l ++ "\n").toList.take 3 ≠ [' ', ' ', ' ']) :
    unindent3 (indentText "   " (joinStr (ls.map fun l => l ++ "\n")) ++ "\n")
      = joinStr (ls.map fun l => l ++ "\n") ++ "\n" := by
  rw [indentText_joinStr "   " ls hnl]
  rw [← joinStr_map_append_blank (ls.map (indentLine "   "))]
  have hgnl : ∀ l ∈ ls.map (indentLine "   ") ++ [""], '\n' ∉ l.data := by
    intro l hl
    rcases List.mem_append.mp hl with h | h
    · obtain ⟨x, hx, hxl⟩ := List.mem_map.mp h
      subst hxl
      rw [indentLine]
      split
      · exact hnl x hx
      · intro hmem
        rcases List.mem_append.mp hmem with h2 | h2
        · exact absurd h2 (by decide)
        · exact hnl x hx h2
    · rw [List.mem_singleton.mp h]
      intro hmem
      exact absurd hmem (by decide)
  rw [unindent3]
  rw [linesKE_joinStr (ls.map (indentLine "   ") ++ [""]) hgnl, List.map_map]
  rw [← joinStr_map_append_blank ls]
  congr 1
  rw [List.map_append, List.map_append]
  congr 1
  rw [List.map_map]
  apply List.map_congr_left
  intro l hl
  show (if ((indentLine "   " l ++ "\n")).toList.take 3 = [' ', ' ', ' ']
      then strDrop (indentLine "   " l ++ "\n") 3 else indentLine "   " l ++ "\n")
    = l ++ "\n"
  by_cases h : pyStrip (l ++ "\n") = ""
  · rw [indentLine, if_pos h, if_neg (hws l hl h)]
  · rw [indentLine, if_neg h]
    have hdata : (("   " ++ l) ++ "\n").toList
        = ' ' :: ' ' :: ' ' :: (l ++ "\n").data := rfl
    rw [if_pos (by rw [hdata]; rfl)]
    show String.mk ((("   " ++ l) ++ "\n").toList.drop 3) = l ++ "\n"
    rw [hdata]
    exact mk_data_eta (l ++ "\n")

/-- Dropping two characters from an indented line block (whose first line
does not strip empty, hence is indented) followed by anything drops them
from the block alone. -/
theorem strDrop_joinStr_indent (H : String) (rest : List String) (B : String)
    (hne : pyStrip (H ++ "\n") ≠ "") :
    strDrop (joinStr (((H :: rest).map (indentLine "   ")).map fun l => l ++ "\n") ++ B) 2
      = strDrop (joinStr (((H :: rest).map (indentLine "   ")).map fun l => l ++ "\n")) 2
        ++ B := by
  have hiL : indentLine "   " H = "   " ++ H := if_neg hne
  have hA : joinStr (((H :: rest).map (indentLine "   ")).map fun l => l ++ "\n")
      = (("   " ++ H) ++ "\n")
        ++ joinStr ((rest.map (indentLine "   ")).map fun l => l ++ "\n") := by
    rw [List.map_cons, List.map_cons, hiL]
    rfl
  obtain ⟨tail, htail⟩ : ∃ tail,
      (joinStr (((H :: rest).map (indentLine "   ")).map fun l => l ++ "\n")).data
        = ' ' :: ' ' :: tail := by
    refine ⟨' ' :: H.data ++ ['\n']
      ++ (joinStr ((rest.map (indentLine "   ")).map fun l => l ++ "\n")).data, ?_⟩
    rw [hA]
    rfl
  exact strDrop_append_two _ B ' ' ' ' tail htail

/-! ## Claim theorems -/

/-- C1: for every container type carrying the scoped-child mechanism, a
sequence of scoped-child uses appends exactly one rendering per acquired
child to the parent's buffer, at scope exit, in the order the scopes were
opened; the number of appended renderings equals the number of
acquisitions, and a scope whose caller writes nothing (identity body)
still appends that child's rendering. -/
theorem scoped_child_exactly_once {α : Type} (get_result : α → String)
    (buf : String) (scopes : List (α × (α → α))) :
    run_contexts get_result buf scopes
        = buf ++ joinStr (scopes.map fun s => get_result (s.2 s.1))
      ∧ (scopes.map fun s => get_result (s.2 s.1)).length = scopes.length
      ∧ ∀ (manager : α) (b : String),
          add_context_append get_result manager id b = b ++ get_result manager := by
  refine ⟨?_, List.length_map scopes _, fun manager b => rfl⟩
  induction scopes generalizing buf with
  | nil => exact (String.append_empty buf).symm
  | cons hd tl ih =>
    have h1 : run_contexts get_result buf (hd :: tl)
        = run_contexts get_result (buf ++ get_result (hd.2 hd.1)) tl := rfl
    rw [h1, ih (buf ++ get_result (hd.2 hd.1))]
    show buf ++ get_result (hd.2 hd.1) ++ joinStr (tl.map fun s => get_result (s.2 s.1))
        = buf ++ (get_result (hd.2 hd.1) ++ joinStr (tl.map fun s => get_result (s.2 s.1)))
    rw [String.append_assoc]

/-- C2 (counterexample): the `note` block of the claim does not render as
`".. note::\n\n   Body text.\n\n"` — the header keeps a trailing space
from the always-interpolated argument slot, and `get_result` appends one
more newline. -/
theorem noteBlock_claim_cex :
    noteBlock.get_result ≠ ".. note::\n\n   Body text.\n\n" := by decide

/-- C2 (amended): a `Directive` named `note` with no argument and no
options, containing a paragraph with the single line `"Body text."`,
renders exactly `".. note:: \n\n   Body text.\n\n\n"`: the header line
carries a trailing space because the empty argument slot is still
interpolated after `":: "`, and `get_result` appends one extra newline
after the body. -/
theorem noteBlock_render :
    noteBlock.get_result = ".. note:: \n\n   Body text.\n\n\n" := by decide

/-- C3 (counterexample): the `"Report"` document's preamble is not
`"Report\n######\n\n:tocdepth: 1\n\n"` — the title is overlined as well
as underlined, and no blank line separates the title from the field
lines. -/
theorem reportDoc_claim_cex :
    reportDoc.get_result ≠ "Report\n######\n\n:tocdepth: 1\n\n" := by decide

/-- C3 (amended): a `ReSTDocument` with title `"Report"`, no subtitle and
the single metadata field `tocdepth=1` renders the preamble
`"######\nReport\n######\n:tocdepth: 1\n\n"`: the title gets an overline
and an underline of matching length, the field line follows immediately,
and the single blank line comes after the fields. -/
theorem reportDoc_preamble :
    reportDoc.get_result = "######\nReport\n######\n:tocdepth: 1\n\n" := by decide

/-- C4 (counterexample): for the `note` block, whose only child renders
as `"Body text.\n\n"`, the rendered output is the fence part followed by
the 3-space-indented body region, but removing the 3-space indent from
every line of that body region yields `"Body text.\n\n\n"`, not the
children's concatenation: the renderer's extra trailing newline is
picked up, so the round-trip as claimed adds one newline. -/
theorem directive_roundtrip_cex :
    noteBlock.get_result
        = ".." ++ strDrop (indentText "   " (Directive.init "note" none []).buffer) 2
          ++ (indentText "   " "Body text.\n\n" ++ "\n")
    ∧ ((⟨""⟩ : Paragraph).write_line "Body text.").get_result = "Body text.\n\n"
    ∧ unindent3 (indentText "   " "Body text.\n\n" ++ "\n") ≠ "Body text.\n\n" :=
  ⟨by decide, by decide, by decide⟩

/-- C4 (amended): for every `Directive` built from newline-free
construction strings whose children's renderings consist of
newline-terminated lines none of which both strips to empty and starts
with three spaces, the rendered output is the fence/header part followed
by the 3-space-indented children region plus one final newline, and
removing the 3-space indent from every line of that region recovers
exactly the children's concatenation followed by that one extra
renderer-added newline — one newline more than the claim's round trip
allows. -/
theorem directive_roundtrip (name : String) (argument : Option String)
    (opts : List (String × Option String)) (ls : List String)
    (hname : '\n' ∉ (headerRaw name argument).data)
    (hopts : ∀ nv ∈ opts, '\n' ∉ (optionRaw nv).data)
    (hls : ∀ l ∈ ls, '\n' ∉ l.data)
    (hws : ∀ l ∈ ls, pyStrip (l ++ "\n") = "" →
      (l ++ "\n").toList.take 3 ≠ [' ', ' ', ' ']) :
    (directiveWith name argument opts (joinStr (ls.map fun l => l ++ "\n"))).get_result
        = ".." ++ strDrop (indentText "   " (Directive.init name argument opts).buffer) 2
          ++ (indentText "   " (joinStr (ls.map fun l => l ++ "\n")) ++ "\n")
    ∧ unindent3 (indentText "   " (joinStr (ls.map fun l => l ++ "\n")) ++ "\n")
        = joinStr (ls.map fun l => l ++ "\n") ++ "\n" := by
  refine ⟨?_, unindent3_indentText ls hls hws⟩
  have hblank : '\n' ∉ ("" : String).data := by decide
  have hInit : ∀ l ∈ (headerRaw name argument :: opts.map optionRaw) ++ [""],
      '\n' ∉ l.data := by
    intro l hl
    rcases List.mem_append.mp hl with h | h
    · rcases List.mem_cons.mp h with h2 | h2
      · exact h2 ▸ hname
      · obtain ⟨nv, hnv, hl2⟩ := List.mem_map.mp h2
        exact hl2 ▸ hopts nv hnv
    · exact (List.mem_singleton.mp h) ▸ hblank
  have hAll : ∀ l ∈ ((headerRaw name argument :: opts.map optionRaw) ++ [""]) ++ ls,
      '\n' ∉ l.data := by
    intro l hl
    rcases List.mem_append.mp hl with h | h
    · exact hInit l h
    · exact hls l h
  have hne : pyStrip (headerRaw name argument ++ "\n") ≠ "" := by
    refine pyStrip_ne_empty _ ':' ?_ (by decide)
    rw [data_append, headerRaw, data_append, data_append]
    exact List.mem_append.mpr (Or.inl (List.mem_append.mpr (Or.inl
      (List.mem_append.mpr (Or.inr (by decide))))))
  show ".." ++ strDrop (indentText "   "
      ((Directive.init name argument opts).buffer
        ++ joinStr (ls.map fun l => l ++ "\n"))) 2 ++ "\n" = _
  rw [init_buffer_eq name argument opts]
  rw [← joinStr_append, ← List.map_append]
  rw [indentText_joinStr "   "
    (((headerRaw name argument :: opts.map optionRaw) ++ [""]) ++ ls) hAll]
  rw [indentText_joinStr "   "
    ((headerRaw name argument :: opts.map optionRaw) ++ [""]) hInit]
  rw [indentText_joinStr "   " ls hls]
  rw [List.map_append (indentLine "   ")
    ((headerRaw name argument :: opts.map optionRaw) ++ [""]) ls]
  rw [List.map_append (fun l => l ++ "\n")
    (((headerRaw name argument :: opts.map optionRaw) ++ [""]).map (indentLine "   "))
    (ls.map (indentLine "   "))]
  rw [joinStr_append]
  simp only [List.cons_append]
  rw [strDrop_joinStr_indent (headerRaw name argument) (opts.map optionRaw ++ [""])
    (joinStr ((ls.map (indentLine "   ")).map fun l => l ++ "\n")) hne]
  simp only [String.append_assoc]

/-- C4 (witness): at the `note` block with the single child line
`"Body text."`, the amended round trip holds. -/
theorem directive_roundtrip_witness :
    (directiveWith "note" none []
        (joinStr (["Body text."].map fun l => l ++ "\n"))).get_result
        = ".." ++ strDrop (indentText "   " (Directive.init "note" none []).buffer) 2
          ++ (indentText "   " (joinStr (["Body text."].map fun l => l ++ "\n")) ++ "\n")
    ∧ unindent3 (indentText "   " (joinStr (["Body text."].map fun l => l ++ "\n")) ++ "\n")
        = joinStr (["Body text."].map fun l => l ++ "\n") ++ "\n" :=
  directive_roundtrip "note" none [] ["Body text."]
    (by decide) (by decide) (by decide) (by decide)

/-- C5: a subsection acquired through a `Section`'s scoped-child
operation is created with depth `parent.level + 1` — the caller passes no
depth — and a subsection of a depth-1 section renders its heading with
the character at index 2 of `HEADING_CHARS`. -/
theorem subsection_depth (parent : Section) (title : String)
    (anchor : Option String) :
    (parent.acquireSubsection title anchor).level = parent.level + 1
    ∧ (parent.level = 1 → anchor = none →
        (parent.acquireSubsection title anchor).buffer
          = underline title (headingChar 2) false ++ "\n\n") := by
  refine ⟨rfl, fun h1 h2 => ?_⟩
  subst h2
  show anchorText none ++ underline title (headingChar (parent.level + 1)) false ++ "\n\n"
      = underline title (headingChar 2) false ++ "\n\n"
  rw [h1]
  exact String.empty_append _

/-- C5 (witness): a depth-2 subsection `"Sub"` of the depth-1 section
`"Top"` renders with `HEADING_CHARS[2]`. -/
theorem subsection_depth_witness :
    ((Section.init 1 "Top" none).acquireSubsection "Sub" none).buffer
      = underline "Sub" (headingChar 2) false ++ "\n\n" :=
  (subsection_depth (Section.init 1 "Top" none) "Sub" none).2 rfl rfl

/-- C6: for every `Section` (any constructible level, any title starting
with a non-whitespace character, any anchor), the run of heading
characters emitted directly beneath the title consists solely of the
level's heading character and has length exactly equal to the title's
length. -/
theorem section_underline_matches_title (level : Nat) (title : String)
    (anchor : Option String) (c0 : Char) (rest : List Char)
    (hlevel : level < 5) (htitle : title.data = c0 :: rest)
    (hc0 : c0.isWhitespace = false) :
    ∃ run : String,
      (Section.init level title anchor).buffer
          = anchorText anchor ++ (title ++ "\n" ++ run) ++ "\n\n"
      ∧ run.length = title.length
      ∧ ∀ c ∈ run.data, c = headingChar level := by
  have hc : (headingChar level).isWhitespace = false := by
    interval_cases level <;> decide
  refine ⟨String.mk (List.replicate title.length (headingChar level)), ?_, ?_, ?_⟩
  · show anchorText anchor ++ underline title (headingChar level) false ++ "\n\n" = _
    rw [underline_no_overline title (headingChar level) c0 rest htitle hc0 hc]
  · rw [length_data, data_mk, List.length_replicate]
  · intro c hcmem
    exact List.eq_of_mem_replicate (by exact hcmem)

/-- C6 (witness): the depth-1 section `"Summary"` carries an underline
run of length 7 made of `HEADING_CHARS[1]`. -/
theorem section_underline_matches_title_witness :
    ∃ run : String,
      (Section.init 1 "Summary" none).buffer
          = anchorText none ++ ("Summary" ++ "\n" ++ run) ++ "\n\n"
      ∧ run.length = ("Summary" : String).length
      ∧ ∀ c ∈ run.data, c = headingChar 1 :=
  section_underline_matches_title 1 "Summary" none 'S' "ummary".data
    (by decide) rfl (by decide)

/-- C7: a `Paragraph` renders as its written lines, each terminated by a
newline, followed by one trailing blank line; it is a total function, and
a paragraph with no written lines renders as exactly `"\n"`. -/
theorem paragraph_render_spec (written : List String) :
    (paragraphOf written).get_result
        = joinStr (written.map fun l => l ++ "\n") ++ "\n"
    ∧ (paragraphOf []).get_result = "\n" := by
  constructor
  · show (paragraphOf written).buffer ++ "\n" = _
    rw [paragraphOf, paragraph_buffer written "", String.empty_append]
  · rfl

/-- C8: a `BulletList` acquiring two items whose paragraphs hold the
single lines `"a"` and `"b"` renders exactly `"- a\n\n- b\n\n"`. -/
theorem bullet_list_two_items : listAB.get_result = "- a\n\n- b\n\n" := by decide

/-- C9: rendering the abstract base accumulator yields the
not-implemented error (the `@abstractmethod` contract of
`TextAccumulator.get_result`), while every concrete subclass supplies a
rendering that succeeds. -/
theorem base_render_fails (buf : String) :
    renderAcc .base buf = .error "not implemented"
    ∧ ∀ k : AccKind, k ≠ .base → ∃ s, renderAcc k buf = .ok s := by
  refine ⟨rfl, fun k hk => ?_⟩
  cases k
  · exact absurd rfl hk
  all_goals exact ⟨_, rfl⟩

/-- C9 (witness): at the empty buffer, the base errors and the concrete
`Paragraph` kind renders successfully. -/
theorem base_render_fails_witness :
    renderAcc .base "" = .error "not implemented"
    ∧ ∃ s, renderAcc .paragraph "" = .ok s :=
  ⟨(base_render_fails "").1, (base_render_fails "").2 .paragraph (by decide)⟩

/-- C10: `get_extreme_dates` returns `(none, none)` on the empty
collection rather than failing, and on a non-empty collection returns
`(some e, some l)` where `e` and `l` are due dates of elements and bound
every element's due date below and above. -/
theorem get_extreme_dates_spec (milestones : List Milestone) :
    get_extreme_dates [] = (none, none)
    ∧ (milestones ≠ [] →
        ∃ e l, get_extreme_dates milestones = (some e, some l)
          ∧ e ∈ milestones.map Milestone.due
          ∧ l ∈ milestones.map Milestone.due
          ∧ ∀ d ∈ milestones.map Milestone.due, e ≤ d ∧ d ≤ l) := by
  refine ⟨rfl, fun hne => ?_⟩
  match milestones, hne with
  | m :: tl, _ =>
    have h0 : get_extreme_dates (m :: tl)
        = tl.foldl extremeStep (some m.due, some m.due) := rfl
    obtain ⟨e2, l2, heq, he2, hl2, hee, hll, hall⟩ :=
      foldl_extremeStep tl m.due m.due
    refine ⟨e2, l2, h0.trans heq, ?_, ?_, ?_⟩
    · rcases he2 with h | h
      · exact List.mem_cons.mpr (Or.inl (by simp [h]))
      · exact List.mem_cons.mpr (Or.inr h)
    · rcases hl2 with h | h
      · exact List.mem_cons.mpr (Or.inl (by simp [h]))
      · exact List.mem_cons.mpr (Or.inr h)
    · intro d hd
      rcases List.mem_cons.mp hd with h | h
      · subst h; exact ⟨hee, hll⟩
      · exact hall d h

/-- C10 (witness): on the concrete collection with due dates 5 and 2 the
fold returns set extremes that are members and bounds. -/
theorem get_extreme_dates_spec_witness :
    get_extreme_dates [] = (none, none)
    ∧ ∃ e l, get_extreme_dates [(⟨5⟩ : Milestone), ⟨2⟩] = (some e, some l)
        ∧ e ∈ [(⟨5⟩ : Milestone), ⟨2⟩].map Milestone.due
        ∧ l ∈ [(⟨5⟩ : Milestone), ⟨2⟩].map Milestone.due
        ∧ ∀ d ∈ [(⟨5⟩ : Milestone), ⟨2⟩].map Milestone.due, e ≤ d ∧ d ≤ l :=
  ⟨(get_extreme_dates_spec []).1,
    (get_extreme_dates_spec [⟨5⟩, ⟨2⟩]).2 (List.cons_ne_nil _ _)⟩

end DMTN
